import Mathlib

/-!
Verification development for `spacepy/poppy.py` (PoPPy -- Point Processes in
Python): the `PPro` association-analysis object (`assoc`, `swap`) and the
module-level bootstrap confidence-interval estimator `boots_ci`.

Timestamps, lags, window half-widths and statistic values are modelled as
rationals (`ℚ`).  Python `None`-or-value attributes are modelled as `Option`;
Python truthiness tests (`if u:`, `assert self.lags`) are modelled by explicit
truthiness functions on `Option`.  Fallible calls return the mutated object
together with an `Option String` error (mirroring `assoc`, which returns an
error string rather than raising), or an `Except String` result (`boots_ci`,
whose length-guard failure path raises).
-/

namespace Poppy

/-- Modelled from the spec: the OverlapCounter collaborator
`spacepy.toolbox.tOverlap` (repository code not included under `src/`).  Per
the contract, given a closed interval `[tLower, tUpper]` and a series of
timestamps it returns the indices of the timestamps falling inside the
interval, empty when none match.  The analyzer only uses the number of
matching indices, so the model returns that count directly. -/
def tOverlapCount (tLower tUpper : ℚ) (series : List ℚ) : ℕ :=
  (series.filter (fun t => decide (tLower ≤ t) && decide (t ≤ tUpper))).length

/-- Modelled from the spec: `matplotlib.mlab.prctile` (external collaborator).
Linear-interpolated percentile: on the sorted data of length `m`, the rank of
percentile `p` is `p / 100 * (m - 1)`; the result interpolates linearly
between the values at the floor and ceiling of that rank. -/
def prctile (xs : List ℚ) (p : ℚ) : ℚ :=
  let s := List.insertionSort (fun a b : ℚ => a ≤ b) xs
  let m := s.length
  if m = 0 then 0
  else
    let r : ℚ := p * ((m : ℚ) - 1) / 100
    let i : ℕ := r.floor.toNat
    let f : ℚ := r - (i : ℚ)
    let lo := s.getD i 0
    let hi := s.getD (i + 1) lo
    lo + f * (hi - lo)

/-- Modelled from the spec: `matplotlib.mlab.prctile_rank` at cut points
`p = (20, 80)` (external collaborator).  Each value is ranked by the number of
the two percentile cut values of `xs` lying strictly below it: rank 0 is the
lowest-ranked bucket (at or below the 20th percentile), rank 2 the
highest-ranked bucket (strictly above the 80th percentile), rank 1 the
discarded middle. -/
def prctile_rank20_80 (xs : List ℚ) (v : ℚ) : ℕ :=
  (if prctile xs 20 < v then 1 else 0) + (if prctile xs 80 < v then 1 else 0)

/-- Mean of a list of rationals, modelling `numpy.mean`: `none` models the
NaN produced on an empty input. -/
def meanQ (xs : List ℚ) : Option ℚ :=
  if xs.isEmpty then none else some (xs.sum / (xs.length : ℚ))

/-- Elementwise sum of two count vectors, one accumulation step of
`numpy.sum(..., axis=0)`. -/
def vecAdd (a b : List ℕ) : List ℕ := List.zipWith (· + ·) a b

/-- Column-wise sum of a count matrix with `ncols` columns, modelling
`numpy.sum(self.n_assoc, axis=0)`: fold elementwise additions of the rows
into an all-zero accumulator of length `ncols`. -/
def colSums (ncols : ℕ) (m : List (List ℕ)) : List ℕ :=
  m.foldl vecAdd (List.replicate ncols 0)

/-- The PPro session object: the two event series, the stored configuration
(`lags`, `winhalf`, `None` when unset) and the derived attributes, each
`none` until the corresponding method has set it.  A computed
`asympt_assoc` of `some none` models a stored NaN (mean over an empty
percentile bucket). -/
structure PPro where
  process1 : List ℚ
  process2 : List ℚ
  lags : Option (List ℚ)
  winhalf : Option ℚ
  n_assoc : Option (List (List ℕ))
  assoc_total : Option (List ℕ)
  asympt_assoc : Option (Option ℚ)
  ci : Option (List ℚ × List ℚ)
  deriving DecidableEq

/-- Python truthiness of an optional list attribute (`if u:`,
`assert self.lags`): `None` and the empty list are falsy. -/
def truthyL (o : Option (List ℚ)) : Bool :=
  match o with
  | none => false
  | some l => !l.isEmpty

/-- Python truthiness of an optional scalar attribute (`if h:`,
`assert self.winhalf`): `None` and zero are falsy. -/
def truthyW (o : Option ℚ) : Bool :=
  match o with
  | none => false
  | some q => !(q == 0)

/-- The error string returned by `assoc` when the lags/winhalf check fails. -/
def assocErrMsg : String :=
  "assoc error: attributes lags and winhalf must be populated"

/-- The `swap` method: exchanges `process1` and `process2` through two
temporaries and touches nothing else. -/
def swap (pp : PPro) : PPro :=
  let temp2 := pp.process1
  let temp1 := pp.process2
  { pp with process1 := temp1, process2 := temp2 }

/-- One row of the association-count matrix `n_assoc`: for series-1 point
`tp1`, the count of series-2 points in `[tp1 + lag - winhalf,
tp1 + lag + winhalf]` for each lag. -/
def assocRow (p2 : List ℚ) (lagList : List ℚ) (winhalf : ℚ) (tp1 : ℚ) : List ℕ :=
  lagList.map (fun lag => tOverlapCount (tp1 + lag - winhalf) (tp1 + lag + winhalf) p2)

/-- The association-count matrix `n_assoc`, row `i` for series-1 point `i`,
column `j` for lag `j` (the Python code fills `n_assoc[nss, ilag]` over the
same double loop). -/
def assocMatrix (p1 p2 : List ℚ) (lagList : List ℚ) (winhalf : ℚ) : List (List ℕ) :=
  p1.map (assocRow p2 lagList winhalf)

/-- The association curve as rational values: the conversion of the integer
column sums into the numeric array on which `numpy.mean` operates. -/
def curveOf (tot : List ℕ) : List ℚ := tot.map Nat.cast

/-- The asymptotic association: rank the lag values by the 20th/80th
percentiles of the lag values themselves, take the association-curve values
over the rank-0 (low) bucket and the rank-2 (high) bucket, and average the
two bucket means; `none` models the NaN that `numpy.mean` propagates when a
bucket is empty. -/
def asymptOf (lagList : List ℚ) (curve : List ℚ) : Option ℚ :=
  let pairs := lagList.zip curve
  let valsL := (pairs.filter (fun pr => prctile_rank20_80 lagList pr.1 == 0)).map Prod.snd
  let valsR := (pairs.filter (fun pr => prctile_rank20_80 lagList pr.1 == 2)).map Prod.snd
  match meanQ valsL, meanQ valsR with
  | some a, some b => some ((a + b) / 2)
  | _, _ => none

/-- The computation part of `assoc`, after the configuration checks have
passed: build `n_assoc`, its column sums `assoc_total`, and
`asympt_assoc`. -/
def assocCompute (pp : PPro) (lagList : List ℚ) (w : ℚ) : PPro :=
  let m := assocMatrix pp.process1 pp.process2 lagList w
  let tot := colSums lagList.length m
  { pp with
      n_assoc := some m
      assoc_total := some tot
      asympt_assoc := some (asymptOf lagList (curveOf tot)) }

/-- The `assoc` method.  Mirrors the Python control flow: a truthy call-time
`u` is stored into `self.lags` before `assert self.lags`; then a truthy
call-time `h` is stored into `self.winhalf` before `assert self.winhalf`; a
failed assert is caught and the (possibly already mutated) object is
returned with the error string; otherwise the derived attributes are
computed and stored. -/
def assoc (pp : PPro) (u : Option (List ℚ)) (h : Option ℚ) : PPro × Option String :=
  let pp1 := if truthyL u then { pp with lags := u } else pp
  if truthyL pp1.lags then
    let pp2 := if truthyW h then { pp1 with winhalf := h } else pp1
    if truthyW pp2.winhalf then
      (assocCompute pp2 (pp2.lags.getD []) (pp2.winhalf.getD 0), none)
    else (pp2, some assocErrMsg)
  else (pp1, some assocErrMsg)

/-- The lags in effect during an `assoc` call: the call-time argument when
truthy, otherwise the stored attribute. -/
def effLags (pp : PPro) (u : Option (List ℚ)) : Option (List ℚ) :=
  if truthyL u then u else pp.lags

/-- The window half-width in effect during an `assoc` call: the call-time
argument when truthy, otherwise the stored attribute. -/
def effWinhalf (pp : PPro) (h : Option ℚ) : Option ℚ :=
  if truthyW h then h else pp.winhalf

/-- The per-element dictionary `data_copy` built by `boots_ci`
(`data_copy[el] = rec` over `enumerate(data)`), as an association list from
index to value. -/
def dataCopy (data : List ℚ) : List (ℕ × ℚ) := data.enum

/-- Dictionary lookup `data_copy[rec]`; the bootstrap only looks up keys the
enumeration inserted, so a missing key (Python `KeyError`) is modelled by the
default 0. -/
def dictGet (d : List (ℕ × ℚ)) (k : ℕ) : ℚ :=
  ((d.find? (fun pr => pr.1 == k)).map Prod.snd).getD 0

/-- The error raised on the short-input path of `boots_ci`: the statement
`ci_low, ci_high = np.nan` attempts to unpack a scalar float and raises a
`TypeError`. -/
def bootsErrMsg : String := "TypeError: cannot unpack non-iterable float"

/-- One surrogate series of `boots_ci` via the dictionary: element `el` is
`data_copy[ran_el[el, i]]`.  `ran_el i el` models the entry of the
`numpy.random.randint(0, n_els, size=[n_els, n])` draw for resample `i` and
element `el`; reducing it modulo `n_els` puts an arbitrary injected source
into the range `[0, n_els)` that `randint` guarantees. -/
def surrSer (data : List ℚ) (ran_el : ℕ → ℕ → ℕ) (i : ℕ) : List ℚ :=
  (List.range data.length).map (fun el => dictGet (dataCopy data) (ran_el i el % data.length))

/-- The bootstrap confidence-interval estimator `boots_ci`: tail percentiles
`perc_low = (100 - inter)/2` and `perc_high = inter + perc_low`; for inputs
of length at least 3, `n` surrogate statistic values (each on a resample of
`n_els` dictionary look-ups at the injected random indices) and the two
linear-interpolated percentiles of the surrogate distribution; for shorter
inputs the unpacking of `np.nan` raises, modelled as an error result. -/
def boots_ci (data : List ℚ) (n : ℕ) (inter : ℚ) (func : List ℚ → ℚ)
    (ran_el : ℕ → ℕ → ℕ) : Except String (ℚ × ℚ) :=
  let perc_low := (100 - inter) / 2
  let perc_high := inter + perc_low
  let n_els := data.length
  if 2 < n_els then
    let surr_quan := (List.range n).map (fun i => func (surrSer data ran_el i))
    Except.ok (prctile surr_quan perc_low, prctile surr_quan perc_high)
  else
    Except.error bootsErrMsg

/-- The bootstrap estimator exactly as the spec words it: lowPercentile and
highPercentile tail fractions, `numResamples` resampled vectors formed by
direct indexed access at indices drawn from `[0, n)`, one surrogate
statistic value per resample, and the linear-interpolated percentiles of the
surrogate distribution, with `InsufficientDataError` on too-short input. -/
def bootstrapCI_spec (counts : List ℚ) (numResamples : ℕ) (confidenceLevel : ℚ)
    (statistic : List ℚ → ℚ) (draw : ℕ → ℕ → ℕ) : Except String (ℚ × ℚ) :=
  let lowPercentile := (100 - confidenceLevel) / 2
  let highPercentile := confidenceLevel + lowPercentile
  let nPts := counts.length
  if 2 < nPts then
    let surrogate := (List.range numResamples).map
      (fun i => statistic ((List.range nPts).map (fun el => counts.getD (draw i el % nPts) 0)))
    Except.ok (prctile surrogate lowPercentile, prctile surrogate highPercentile)
  else
    Except.error "InsufficientDataError"

/-- Modelled from the spec: an injectable pseudorandom source (a linear
congruential step), giving the deterministic resampling draw for a fixed
seed. -/
def lcg (s : ℕ) : ℕ := (6364136223846793005 * s + 1442695040888963407) % (2 ^ 64)

/-- The random index matrix derived from an injected seed: entry for
resample `i`, element `el`. -/
def randSource (seed : ℕ) (i el : ℕ) : ℕ := lcg (seed + 1000003 * i + el)

/-- The bootstrap estimator with an injected seed in place of numpy's global
random state. -/
def boots_ci_seeded (data : List ℚ) (n : ℕ) (inter : ℚ) (func : List ℚ → ℚ)
    (seed : ℕ) : Except String (ℚ × ℚ) :=
  boots_ci data n inter func (randSource seed)

/-! Helper lemmas -/

theorem dictGet_dataCopy_enumFrom (data : List ℚ) :
    ∀ (s k : ℕ), k < data.length →
      dictGet (data.enumFrom s) (s + k) = data.getD k 0 := by
  induction data with
  | nil => intro s k hk; simp at hk
  | cons a l ih =>
    intro s k hk
    cases k with
    | zero => simp [dictGet, List.enumFrom, List.find?]
    | succ k =>
      have hne : (s == s + (k + 1)) = false := by
        simp only [beq_eq_false_iff_ne]; omega
      have := ih (s + 1) k (by simpa using Nat.lt_of_succ_lt_succ hk)
      simp only [dictGet, List.enumFrom, List.find?, hne] at this ⊢
      rw [show s + (k + 1) = s + 1 + k by omega]
      simpa [List.getD] using this

theorem dictGet_dataCopy (data : List ℚ) (k : ℕ) (hk : k < data.length) :
    dictGet (dataCopy data) k = data.getD k 0 := by
  have := dictGet_dataCopy_enumFrom data 0 k hk
  simpa [dataCopy, List.enum] using this

theorem surrSer_eq_indexed (data : List ℚ) (ran_el : ℕ → ℕ → ℕ) (i : ℕ)
    (hpos : 0 < data.length) :
    surrSer data ran_el i =
      (List.range data.length).map (fun el => data.getD (ran_el i el % data.length) 0) := by
  unfold surrSer
  congr 1
  funext el
  exact dictGet_dataCopy data _ (Nat.mod_lt _ hpos)

theorem assoc_ok_eq (pp : PPro) (u : Option (List ℚ)) (h : Option ℚ)
    (hL : truthyL (effLags pp u) = true) (hW : truthyW (effWinhalf pp h) = true) :
    assoc pp u h =
      (assocCompute { pp with lags := effLags pp u, winhalf := effWinhalf pp h }
        ((effLags pp u).getD []) ((effWinhalf pp h).getD 0), none) := by
  cases pp
  cases hu : truthyL u <;> cases hh : truthyW h <;>
    simp_all [assoc, effLags, effWinhalf]

theorem assoc_fail_lags (pp : PPro) (u : Option (List ℚ)) (h : Option ℚ)
    (hL : truthyL (effLags pp u) = false) :
    assoc pp u h = ({ pp with lags := effLags pp u }, some assocErrMsg) := by
  cases pp
  cases hu : truthyL u <;> simp_all [assoc, effLags]

theorem assoc_fail_winhalf (pp : PPro) (u : Option (List ℚ)) (h : Option ℚ)
    (hL : truthyL (effLags pp u) = true) (hW : truthyW (effWinhalf pp h) = false) :
    assoc pp u h =
      ({ pp with lags := effLags pp u, winhalf := effWinhalf pp h },
        some assocErrMsg) := by
  cases pp
  cases hu : truthyL u <;> cases hh : truthyW h <;>
    simp_all [assoc, effLags, effWinhalf]

theorem assoc_ok_inv (pp : PPro) (u : Option (List ℚ)) (h : Option ℚ) (pp' : PPro)
    (hok : assoc pp u h = (pp', none)) :
    truthyL (effLags pp u) = true ∧ truthyW (effWinhalf pp h) = true ∧
      pp' = assocCompute { pp with lags := effLags pp u, winhalf := effWinhalf pp h }
        ((effLags pp u).getD []) ((effWinhalf pp h).getD 0) := by
  cases hL : truthyL (effLags pp u) with
  | false => rw [assoc_fail_lags pp u h hL] at hok; simp at hok
  | true =>
    cases hW : truthyW (effWinhalf pp h) with
    | false => rw [assoc_fail_winhalf pp u h hL hW] at hok; simp at hok
    | true =>
      rw [assoc_ok_eq pp u h hL hW] at hok
      exact ⟨rfl, rfl, (Prod.mk.injEq _ _ _ _ ▸ hok).1.symm⟩

theorem getD_map_of_lt {α β : Type} (f : α → β) (xs : List α) (i : ℕ)
    (hi : i < xs.length) (d : β) (d' : α) :
    (xs.map f).getD i d = f (xs.getD i d') := by
  induction xs generalizing i with
  | nil => simp at hi
  | cons a l ih =>
    cases i with
    | zero => simp
    | succ i =>
      simp only [List.map_cons, List.getD_cons_succ]
      exact ih i (by simpa using hi)

theorem vecAdd_length (a b : List ℕ) : (vecAdd a b).length = min a.length b.length := by
  simp [vecAdd]

theorem vecAdd_getD (a b : List ℕ) (j : ℕ) (hja : j < a.length) (hjb : j < b.length) :
    (vecAdd a b).getD j 0 = a.getD j 0 + b.getD j 0 := by
  induction a generalizing b j with
  | nil => simp at hja
  | cons x xs ih =>
    cases b with
    | nil => simp at hjb
    | cons y ys =>
      cases j with
      | zero => simp [vecAdd]
      | succ j =>
        simp only [vecAdd, List.zipWith_cons_cons, List.getD_cons_succ]
        exact ih ys j (by simpa using hja) (by simpa using hjb)

theorem foldl_vecAdd_getD (c j : ℕ) (hj : j < c) :
    ∀ (m : List (List ℕ)) (acc : List ℕ), acc.length = c →
      (∀ r ∈ m, r.length = c) →
      (m.foldl vecAdd acc).getD j 0 = acc.getD j 0 + (m.map (fun r => r.getD j 0)).sum := by
  intro m
  induction m with
  | nil => intro acc _ _; simp
  | cons r rs ih =>
    intro acc hacc hrows
    have hr : r.length = c := hrows r (by simp)
    have hlen : (vecAdd acc r).length = c := by
      rw [vecAdd_length, hacc, hr]; simp
    simp only [List.foldl_cons, List.map_cons, List.sum_cons]
    rw [ih (vecAdd acc r) hlen (fun x hx => hrows x (by simp [hx])),
      vecAdd_getD acc r j (hacc ▸ hj) (hr ▸ hj), Nat.add_assoc]

theorem getD_replicate_zero (c j : ℕ) : (List.replicate c (0 : ℕ)).getD j 0 = 0 := by
  induction c generalizing j with
  | zero => simp
  | succ c ih =>
    cases j with
    | zero => simp
    | succ j =>
      simp only [List.replicate_succ, List.getD_cons_succ]
      exact ih j

theorem colSums_getD (c : ℕ) (m : List (List ℕ)) (hrows : ∀ r ∈ m, r.length = c)
    (j : ℕ) (hj : j < c) :
    (colSums c m).getD j 0 = (m.map (fun r => r.getD j 0)).sum := by
  unfold colSums
  rw [foldl_vecAdd_getD c j hj m _ (by simp) hrows, getD_replicate_zero, Nat.zero_add]

theorem assocMatrix_rows_length (p1 p2 : List ℚ) (lagList : List ℚ) (w : ℚ) :
    ∀ r ∈ assocMatrix p1 p2 lagList w, r.length = lagList.length := by
  intro r hr
  obtain ⟨a, _, rfl⟩ := List.mem_map.mp hr
  simp [assocRow]

/-! Claim theorems -/

theorem assocCompute_lags (pp : PPro) (lagList : List ℚ) (w : ℚ) :
    (assocCompute pp lagList w).lags = pp.lags := rfl

theorem assocCompute_winhalf (pp : PPro) (lagList : List ℚ) (w : ℚ) :
    (assocCompute pp lagList w).winhalf = pp.winhalf := rfl

theorem assocCompute_n_assoc (pp : PPro) (lagList : List ℚ) (w : ℚ) :
    (assocCompute pp lagList w).n_assoc =
      some (assocMatrix pp.process1 pp.process2 lagList w) := rfl

theorem assocCompute_assoc_total (pp : PPro) (lagList : List ℚ) (w : ℚ) :
    (assocCompute pp lagList w).assoc_total =
      some (colSums lagList.length (assocMatrix pp.process1 pp.process2 lagList w)) := rfl

theorem assocCompute_asympt_assoc (pp : PPro) (lagList : List ℚ) (w : ℚ) :
    (assocCompute pp lagList w).asympt_assoc =
      some (asymptOf lagList
        (curveOf (colSums lagList.length
          (assocMatrix pp.process1 pp.process2 lagList w)))) := rfl

theorem asymptOf_eq (lagList curve : List ℚ) :
    asymptOf lagList curve =
      match
        meanQ (((lagList.zip curve).filter
          (fun pr => prctile_rank20_80 lagList pr.1 == 0)).map Prod.snd),
        meanQ (((lagList.zip curve).filter
          (fun pr => prctile_rank20_80 lagList pr.1 == 2)).map Prod.snd) with
      | some a, some b => some ((a + b) / 2)
      | _, _ => none := rfl

/-- C1: for every successful `assoc` run, cell (i, j) of the count matrix
`n_assoc` equals the number of series-2 points lying inside the closed
interval `[p1_i + lag_j - halfwidth, p1_i + lag_j + halfwidth]`; an empty
overlap result contributes the count 0 rather than an error. -/
theorem n_assoc_cell_is_closed_window_count (pp : PPro) (u : Option (List ℚ))
    (h : Option ℚ) (pp' : PPro) (hok : assoc pp u h = (pp', none))
    (L : List ℚ) (w : ℚ) (hL : pp'.lags = some L) (hw : pp'.winhalf = some w)
    (i j : ℕ) (hi : i < pp.process1.length) (hj : j < L.length) :
    ((pp'.n_assoc.getD []).getD i []).getD j 0 =
      (pp.process2.filter (fun t2 =>
        decide (pp.process1.getD i 0 + L.getD j 0 - w ≤ t2) &&
        decide (t2 ≤ pp.process1.getD i 0 + L.getD j 0 + w))).length := by
  obtain ⟨hLt, hWt, rfl⟩ := assoc_ok_inv pp u h pp' hok
  rw [assocCompute_lags] at hL
  rw [assocCompute_winhalf] at hw
  simp only [assocCompute_n_assoc, Option.getD_some] at hL hw ⊢
  rw [hL, hw]
  simp only [Option.getD_some, assocMatrix]
  rw [getD_map_of_lt (assocRow pp.process2 L w) pp.process1 i hi [] 0]
  unfold assocRow
  rw [getD_map_of_lt _ L j hj 0 0]
  rfl

/-- Concrete example session for the C1 witness: the spec's end-to-end
boundary-inclusion example restricted to two series-1 points. -/
def ppW1 : PPro :=
  PPro.mk [0, 10] [1, 11, 22] (some [-2, 0, 2]) (some 2) none none none none

/-- Witness for C1: a concrete successful run; with series1 = [0, 10],
series2 = [1, 11, 22], lag 0 and half-width 2, cell (1, 1) counts exactly
the series-2 point 11 inside the closed window [8, 12]. -/
theorem n_assoc_cell_is_closed_window_count_witness :
    assoc ppW1 none none = ((assoc ppW1 none none).1, none) ∧
    (((assoc ppW1 none none).1.n_assoc.getD []).getD 1 []).getD 1 0 =
      (ppW1.process2.filter (fun t2 =>
        decide (ppW1.process1.getD 1 0 + ([-2, 0, 2] : List ℚ).getD 1 0 - 2 ≤ t2) &&
        decide (t2 ≤ ppW1.process1.getD 1 0 + ([-2, 0, 2] : List ℚ).getD 1 0 + 2))).length :=
  ⟨by with_unfolding_all rfl,
    n_assoc_cell_is_closed_window_count ppW1 none none (assoc ppW1 none none).1
      (by with_unfolding_all rfl) [-2, 0, 2] 2 (by with_unfolding_all rfl)
      (by with_unfolding_all rfl) 1 1 (by simp [ppW1]) (by simp)⟩

/-- C2: after every successful `assoc` run, every count-matrix entry is a
non-negative integer and `assoc_total[j]` equals exactly the sum over all
series-1 indices of column `j` of the count matrix. -/
theorem assoc_total_is_column_sum (pp : PPro) (u : Option (List ℚ))
    (h : Option ℚ) (pp' : PPro) (hok : assoc pp u h = (pp', none))
    (L : List ℚ) (hL : pp'.lags = some L) (i j : ℕ) (hj : j < L.length) :
    0 ≤ ((pp'.n_assoc.getD []).getD i []).getD j 0 ∧
    (pp'.assoc_total.getD []).getD j 0 =
      ((pp'.n_assoc.getD []).map (fun r => r.getD j 0)).sum := by
  obtain ⟨hLt, hWt, rfl⟩ := assoc_ok_inv pp u h pp' hok
  rw [assocCompute_lags] at hL
  have hL2 : effLags pp u = some L := hL
  refine ⟨Nat.zero_le _, ?_⟩
  simp only [assocCompute_assoc_total, assocCompute_n_assoc, Option.getD_some]
  rw [hL2]
  simp only [Option.getD_some]
  exact colSums_getD L.length _ (assocMatrix_rows_length _ _ _ _) j hj

/-- Concrete example session for the C2 witness. -/
def ppW2 : PPro :=
  PPro.mk [0, 10] [1, 11] (some [0, 2]) (some 2) none none none none

/-- Witness for C2: the column sums on a concrete run. -/
theorem assoc_total_is_column_sum_witness :
    0 ≤ ((((assoc ppW2 none none).1.n_assoc.getD []).getD 0 []).getD 0 0) ∧
    ((assoc ppW2 none none).1.assoc_total.getD []).getD 0 0 =
      (((assoc ppW2 none none).1.n_assoc.getD []).map (fun r => r.getD 0 0)).sum :=
  assoc_total_is_column_sum ppW2 none none (assoc ppW2 none none).1
    (by with_unfolding_all rfl) [0, 2] (by with_unfolding_all rfl) 0 0 (by simp)

/-- C6: for every successful `assoc` run, the asymptotic association is
formed by ranking the lag values themselves (not the curve values) by the
20th/80th percentiles of the lag values, pairing each lag with its
association-curve value, and averaging the mean curve value over the rank-0
(low) bucket with the mean curve value over the rank-2 (high) bucket. -/
theorem asympt_assoc_is_tail_bucket_average (pp : PPro) (u : Option (List ℚ))
    (h : Option ℚ) (pp' : PPro) (hok : assoc pp u h = (pp', none))
    (L : List ℚ) (hL : pp'.lags = some L) (valsL valsR : List ℚ)
    (hvL : valsL = ((L.zip (curveOf (pp'.assoc_total.getD []))).filter
      (fun pr => prctile_rank20_80 L pr.1 == 0)).map Prod.snd)
    (hvR : valsR = ((L.zip (curveOf (pp'.assoc_total.getD []))).filter
      (fun pr => prctile_rank20_80 L pr.1 == 2)).map Prod.snd)
    (hneL : valsL ≠ []) (hneR : valsR ≠ []) :
    pp'.asympt_assoc =
      some (some ((valsL.sum / (valsL.length : ℚ) +
        valsR.sum / (valsR.length : ℚ)) / 2)) := by
  obtain ⟨hLt, hWt, rfl⟩ := assoc_ok_inv pp u h pp' hok
  rw [assocCompute_lags] at hL
  have hL2 : effLags pp u = some L := hL
  rw [assocCompute_assoc_total] at hvL hvR
  simp only [Option.getD_some] at hvL hvR
  rw [assocCompute_asympt_assoc, hL2]
  simp only [Option.getD_some]
  rw [hL2] at hvL hvR
  simp only [Option.getD_some] at hvL hvR
  rw [asymptOf_eq, ← hvL, ← hvR]
  have hmL : meanQ valsL = some (valsL.sum / (valsL.length : ℚ)) := by
    cases valsL with
    | nil => exact absurd rfl hneL
    | cons a t => simp [meanQ]
  have hmR : meanQ valsR = some (valsR.sum / (valsR.length : ℚ)) := by
    cases valsR with
    | nil => exact absurd rfl hneR
    | cons a t => simp [meanQ]
  rw [hmL, hmR]

/-- Witness for C6: the concrete run of `ppW1` has low bucket [0] (lag -2)
and high bucket [2] (lag 2), giving asymptotic association 1. -/
theorem asympt_assoc_is_tail_bucket_average_witness :
    assoc ppW1 none none = ((assoc ppW1 none none).1, none) ∧
    ([(0 : ℚ)] : List ℚ) ≠ [] ∧
    (assoc ppW1 none none).1.asympt_assoc =
      some (some ((([(0 : ℚ)] : List ℚ).sum / ((([(0 : ℚ)] : List ℚ).length : ℚ)) +
        ([(2 : ℚ)] : List ℚ).sum / ((([(2 : ℚ)] : List ℚ).length : ℚ))) / 2)) :=
  ⟨by with_unfolding_all rfl, by simp,
    asympt_assoc_is_tail_bucket_average ppW1 none none (assoc ppW1 none none).1
      (by with_unfolding_all rfl) [-2, 0, 2] (by with_unfolding_all rfl)
      [(0 : ℚ)] [(2 : ℚ)] (by with_unfolding_all rfl) (by with_unfolding_all rfl)
      (by simp) (by simp)⟩

theorem asymptOf_none_of_empty (lagList curve : List ℚ)
    (hempty : ((lagList.zip curve).filter
        (fun pr => prctile_rank20_80 lagList pr.1 == 0)).map Prod.snd = [] ∨
      ((lagList.zip curve).filter
        (fun pr => prctile_rank20_80 lagList pr.1 == 2)).map Prod.snd = []) :
    asymptOf lagList curve = none := by
  rw [asymptOf_eq]
  rcases hempty with hv | hv <;> rw [hv]
  · rfl
  · cases hm : meanQ (((lagList.zip curve).filter
        (fun pr => prctile_rank20_80 lagList pr.1 == 0)).map Prod.snd) with
    | none => rfl
    | some a => rfl

/-- Session whose two identical lag values leave the high percentile bucket
empty, for the C7 counterexample and witness. -/
def ppC7 : PPro := PPro.mk [0] [0] (some [1, 1]) (some 1) none none none none

/-- Counterexample to C7 as stated: on a session whose high percentile
bucket is empty, `assoc` does not fail; it completes without error and
stores a NaN (modelled `none`) as the asymptotic association. -/
theorem assoc_empty_bucket_succeeds_with_nan :
    (assoc ppC7 none none).2 = none ∧
    (assoc ppC7 none none).1.asympt_assoc = some none := by
  constructor <;> with_unfolding_all rfl

/-- C7 amended: on every successful `assoc` run in which the low or the
high percentile bucket of the lag values is empty, the run still succeeds
and the stored asymptotic association is NaN (modelled `none`) rather than
an `InsufficientDataError` failure. -/
theorem assoc_empty_bucket_nan (pp : PPro) (u : Option (List ℚ))
    (h : Option ℚ) (pp' : PPro) (hok : assoc pp u h = (pp', none))
    (L : List ℚ) (hL : pp'.lags = some L)
    (hempty : ((L.zip (curveOf (pp'.assoc_total.getD []))).filter
        (fun pr => prctile_rank20_80 L pr.1 == 0)).map Prod.snd = [] ∨
      ((L.zip (curveOf (pp'.assoc_total.getD []))).filter
        (fun pr => prctile_rank20_80 L pr.1 == 2)).map Prod.snd = []) :
    pp'.asympt_assoc = some none := by
  obtain ⟨hLt, hWt, rfl⟩ := assoc_ok_inv pp u h pp' hok
  rw [assocCompute_lags] at hL
  have hL2 : effLags pp u = some L := hL
  rw [assocCompute_assoc_total] at hempty
  simp only [Option.getD_some] at hempty
  rw [assocCompute_asympt_assoc, hL2]
  simp only [Option.getD_some]
  rw [hL2] at hempty
  simp only [Option.getD_some] at hempty
  rw [asymptOf_none_of_empty _ _ hempty]

/-- Witness for C7 (amended): the concrete empty-high-bucket run stores a
NaN asymptotic association. -/
theorem assoc_empty_bucket_nan_witness :
    assoc ppC7 none none = ((assoc ppC7 none none).1, none) ∧
    (assoc ppC7 none none).1.asympt_assoc = some none :=
  ⟨by with_unfolding_all rfl,
    assoc_empty_bucket_nan ppC7 none none (assoc ppC7 none none).1
      (by with_unfolding_all rfl) [1, 1] (by with_unfolding_all rfl)
      (Or.inr (by with_unfolding_all rfl))⟩

/-- Session with neither lags nor winhalf configured, for the C5
counterexample and witness. -/
def ppC5 : PPro := PPro.mk [0] [0] none none none none none none

/-- Counterexample to C5 as stated: calling `assoc` with a truthy call-time
lag list but no usable half-width fails, yet the session's stored `lags`
attribute has been overwritten by the failed call, so the stored state is
not left unchanged. -/
theorem assoc_failed_call_mutates_lags :
    (assoc ppC5 (some [1]) none).2 = some assocErrMsg ∧
    (assoc ppC5 (some [1]) none).1.lags ≠ ppC5.lags := by
  constructor
  · with_unfolding_all rfl
  · with_unfolding_all decide

/-- C5 amended: whenever, after merging call-time arguments over stored
attributes, either lags or winhalf is still unusable, `assoc` fails with the
configuration error before computing any derived result: `n_assoc`,
`assoc_total`, `asympt_assoc` and `ci` are left unchanged, as are the two
event series; however, the stored `lags` (and `winhalf`) may already have
been overwritten by truthy call-time values when the failure is reported. -/
theorem assoc_unconfigured_fails_without_derived_work (pp : PPro)
    (u : Option (List ℚ)) (h : Option ℚ)
    (hbad : truthyL (effLags pp u) = false ∨ truthyW (effWinhalf pp h) = false) :
    (assoc pp u h).2 = some assocErrMsg ∧
    (assoc pp u h).1.n_assoc = pp.n_assoc ∧
    (assoc pp u h).1.assoc_total = pp.assoc_total ∧
    (assoc pp u h).1.asympt_assoc = pp.asympt_assoc ∧
    (assoc pp u h).1.ci = pp.ci ∧
    (assoc pp u h).1.process1 = pp.process1 ∧
    (assoc pp u h).1.process2 = pp.process2 := by
  cases hL : truthyL (effLags pp u) with
  | false => rw [assoc_fail_lags pp u h hL]; simp
  | true =>
    rcases hbad with hL2 | hW
    · rw [hL] at hL2; exact absurd hL2 (by simp)
    · rw [assoc_fail_winhalf pp u h hL hW]; simp

/-- Witness for C5 (amended): the concrete failed call of the
counterexample leaves every derived attribute unchanged. -/
theorem assoc_unconfigured_fails_without_derived_work_witness :
    truthyW (effWinhalf ppC5 none) = false ∧
    ((assoc ppC5 (some [1]) none).2 = some assocErrMsg ∧
      (assoc ppC5 (some [1]) none).1.n_assoc = ppC5.n_assoc ∧
      (assoc ppC5 (some [1]) none).1.assoc_total = ppC5.assoc_total ∧
      (assoc ppC5 (some [1]) none).1.asympt_assoc = ppC5.asympt_assoc ∧
      (assoc ppC5 (some [1]) none).1.ci = ppC5.ci ∧
      (assoc ppC5 (some [1]) none).1.process1 = ppC5.process1 ∧
      (assoc ppC5 (some [1]) none).1.process2 = ppC5.process2) :=
  ⟨by with_unfolding_all rfl,
    assoc_unconfigured_fails_without_derived_work ppC5 (some [1]) none
      (Or.inr (by with_unfolding_all rfl))⟩

theorem colSums_nil (c : ℕ) : colSums c [] = List.replicate c 0 := rfl

/-- C9: with an empty series1, a non-empty series2, a usable non-empty lag
set and a positive half-width, `assoc` succeeds: the count matrix has zero
rows and the association curve is all zeros with one entry per lag. -/
theorem assoc_empty_series1_zero_curve (pp : PPro) (L : List ℚ) (w : ℚ)
    (hp1 : pp.process1 = []) (hp2 : pp.process2 ≠ [])
    (hL : pp.lags = some L) (hLne : L ≠ []) (hw : pp.winhalf = some w)
    (hwpos : 0 < w) :
    (assoc pp none none).2 = none ∧
    (assoc pp none none).1.n_assoc = some [] ∧
    (assoc pp none none).1.assoc_total = some (List.replicate L.length 0) := by
  have heL : effLags pp none = some L := by simp [effLags, truthyL, hL]
  have heW : effWinhalf pp none = some w := by simp [effWinhalf, truthyW, hw]
  have hLt : truthyL (effLags pp none) = true := by
    rw [heL]; simp [truthyL, hLne]
  have hWt : truthyW (effWinhalf pp none) = true := by
    rw [heW]; simp [truthyW, hwpos.ne']
  rw [assoc_ok_eq pp none none hLt hWt]
  refine ⟨rfl, ?_, ?_⟩
  · simp only [assocCompute_n_assoc]
    simp [assocMatrix, hp1]
  · simp only [assocCompute_assoc_total]
    rw [heL]
    simp only [Option.getD_some]
    simp [assocMatrix, hp1, colSums_nil]

/-- Concrete session with an empty series1 for the C9 witness. -/
def ppW9 : PPro := PPro.mk [] [1] (some [1, 2]) (some 1) none none none none

/-- Witness for C9: the empty-series1 run on a concrete session. -/
theorem assoc_empty_series1_zero_curve_witness :
    ppW9.process1 = [] ∧ ppW9.process2 ≠ [] ∧ (0 : ℚ) < 1 ∧
    ((assoc ppW9 none none).2 = none ∧
      (assoc ppW9 none none).1.n_assoc = some [] ∧
      (assoc ppW9 none none).1.assoc_total = some (List.replicate ([1, 2] : List ℚ).length 0)) :=
  ⟨rfl, by simp [ppW9], by norm_num,
    assoc_empty_series1_zero_curve ppW9 [1, 2] 1 rfl (by simp [ppW9]) rfl
      (by simp) rfl (by norm_num)⟩

/-- C10: `swap` exchanges `process1` and `process2` and changes nothing else:
`lags`, `winhalf` and all previously computed derived attributes (`n_assoc`,
`assoc_total`, `asympt_assoc`, `ci`) are left unchanged, and applying `swap`
twice restores the original object. -/
theorem swap_exchanges_only_processes (pp : PPro) :
    (swap pp).process1 = pp.process2 ∧ (swap pp).process2 = pp.process1 ∧
    (swap pp).lags = pp.lags ∧ (swap pp).winhalf = pp.winhalf ∧
    (swap pp).n_assoc = pp.n_assoc ∧ (swap pp).assoc_total = pp.assoc_total ∧
    (swap pp).asympt_assoc = pp.asympt_assoc ∧ (swap pp).ci = pp.ci ∧
    swap (swap pp) = pp := by
  cases pp
  simp [swap]

/-- C8: `boots_ci` with an injected seed is deterministic: two calls with
identical data, resample count, confidence level, statistic and seed return
identical (lower, upper) results. -/
theorem boots_ci_seeded_deterministic (d1 d2 : List ℚ) (n1 n2 : ℕ) (i1 i2 : ℚ)
    (f1 f2 : List ℚ → ℚ) (s1 s2 : ℕ) (hd : d1 = d2) (hn : n1 = n2)
    (hi : i1 = i2) (hf : f1 = f2) (hs : s1 = s2) :
    boots_ci_seeded d1 n1 i1 f1 s1 = boots_ci_seeded d2 n2 i2 f2 s2 := by
  subst hd; subst hn; subst hi; subst hf; subst hs; rfl

/-- Witness for C8: the determinism theorem applied at a concrete call. -/
theorem boots_ci_seeded_deterministic_witness :
    ([1, 2, 3] : List ℚ) = [1, 2, 3] ∧
      boots_ci_seeded [1, 2, 3] 5 95 List.sum 42 =
        boots_ci_seeded [1, 2, 3] 5 95 List.sum 42 :=
  ⟨rfl, boots_ci_seeded_deterministic [1, 2, 3] [1, 2, 3] 5 5 95 95
    List.sum List.sum 42 42 rfl rfl rfl rfl rfl⟩

/-- C4: on a `counts` input of length 0, 1 or 2, `boots_ci` fails (the
too-few-samples branch) rather than returning a numeric confidence
interval, for any resample count, confidence level, statistic and random
source. -/
theorem boots_ci_short_input_fails (data : List ℚ) (n : ℕ) (inter : ℚ)
    (func : List ℚ → ℚ) (ran_el : ℕ → ℕ → ℕ) (hlen : data.length ≤ 2) :
    boots_ci data n inter func ran_el = Except.error bootsErrMsg := by
  unfold boots_ci
  simp [Nat.not_lt.mpr hlen]

/-- Witness for C4: the two-element input fails. -/
theorem boots_ci_short_input_fails_witness :
    ([1, 2] : List ℚ).length ≤ 2 ∧
      boots_ci [1, 2] 10 95 List.sum (fun _ _ => 0) = Except.error bootsErrMsg :=
  ⟨by simp, boots_ci_short_input_fails [1, 2] 10 95 List.sum (fun _ _ => 0) (by simp)⟩

/-- C3: for confidence level strictly between 0 and 100, at least one
resample, and counts of length greater than 2, `boots_ci` computes exactly
the spec's bootstrap: tail percentiles `(100 - inter)/2` and
`inter + (100 - inter)/2`, `n` resamples each drawing `n_els` indices from
`[0, n_els)` with replacement and applying the statistic, and the
linear-interpolated percentiles of the surrogate distribution; the
dictionary-based element access agrees with direct indexed access. -/
theorem boots_ci_matches_spec (data : List ℚ) (n : ℕ) (inter : ℚ)
    (func : List ℚ → ℚ) (ran_el : ℕ → ℕ → ℕ) (h0 : 0 < inter)
    (h100 : inter < 100) (hn : 1 ≤ n) (hlen : 2 < data.length) :
    boots_ci data n inter func ran_el = bootstrapCI_spec data n inter func ran_el := by
  have hpos : 0 < data.length := by omega
  unfold boots_ci bootstrapCI_spec
  simp only [hlen, if_pos]
  have key : (fun i => func (surrSer data ran_el i)) =
      (fun i => func ((List.range data.length).map
        (fun el => data.getD (ran_el i el % data.length) 0))) := by
    funext i
    rw [surrSer_eq_indexed data ran_el i hpos]
  rw [key]

/-- Witness for C3: a concrete in-range call on which the two definitions
agree. -/
theorem boots_ci_matches_spec_witness :
    (0 : ℚ) < 95 ∧ (95 : ℚ) < 100 ∧ 1 ≤ 4 ∧ 2 < ([1, 2, 3] : List ℚ).length ∧
      boots_ci [1, 2, 3] 4 95 List.sum (fun i el => i + el) =
        bootstrapCI_spec [1, 2, 3] 4 95 List.sum (fun i el => i + el) :=
  ⟨by norm_num, by norm_num, by norm_num, by simp,
    boots_ci_matches_spec [1, 2, 3] 4 95 List.sum (fun i el => i + el)
      (by norm_num) (by norm_num) (by norm_num) (by simp)⟩

end Poppy
